import Mathlib

/-!
Verification of the training-notation interpreter and data model of
`training-parser-antlr4` against its natural-language specification.

Python strings are modelled as `List Char`; Python `float` amounts are
modelled as `ℚ` (the parser only ever produces decimal numerals); Python
exceptions (`ValueError`, `AssertionError`) are modelled with `Except`.
-/

/-- Coerce a Lean string literal to the `List Char` model of Python strings. -/
def pystr (s : String) : List Char := s.data

/-- The characters Python `str.strip` / `re` class `\s` treat as whitespace:
space, tab, newline, carriage return, vertical tab, form feed. -/
def isPyWs (c : Char) : Bool :=
  c == ' ' || c == '\t' || c == '\n' || c == '\r' || c == '\x0b' || c == '\x0c'

/-- Python `str.lstrip()`. -/
def pyLStrip (l : List Char) : List Char := l.dropWhile isPyWs

/-- Python `str.rstrip()`. -/
def pyRStrip (l : List Char) : List Char := (l.reverse.dropWhile isPyWs).reverse

/-- Python `str.strip()`. -/
def pyStrip (l : List Char) : List Char := pyRStrip (pyLStrip l)

/-- Python `str.lower()`; faithful on the ASCII alphabet, which is all the
sources feed it. -/
def pyLower (l : List Char) : List Char := l.map Char.toLower

/-- Python `str.casefold()`; on ASCII input `casefold` coincides with
`lower`, and the synonym table is ASCII. -/
def pyCasefold (l : List Char) : List Char := l.map Char.toLower

/-- Python `str.split(sep)` for a one-character separator: splits at every
occurrence of `c`, keeping empty pieces, and `"".split(sep) == ['']`. -/
def pySplitChar (c : Char) : List Char → List (List Char)
  | [] => [[]]
  | x :: xs =>
    if x = c then [] :: pySplitChar c xs
    else
      match pySplitChar c xs with
      | [] => [[x]]
      | r :: rs => (x :: r) :: rs

/-- Python `part.count(c)` for a single character. -/
def countChar (c : Char) (l : List Char) : Nat := l.count c

/-- Python `'xx' in part`: two adjacent `x` characters occur somewhere. -/
def containsXX : List Char → Bool
  | [] => false
  | [ _ ] => false
  | a :: b :: rest => (a == 'x' && b == 'x') || containsXX (b :: rest)

/-- The character class of the regex `\d` on the ASCII digits the notation
uses. -/
def isDigitChar (c : Char) : Bool := c.isDigit

/-- Numeric value of a run of decimal digits (Python `int`). -/
def digitsToNat (l : List Char) : Nat :=
  l.foldl (fun a c => a * 10 + (c.toNat - '0'.toNat)) 0

/-- Value of a decimal numeral `ip.fp` as a rational. -/
def decimalValue (ip fp : List Char) : ℚ :=
  (digitsToNat ip : ℚ) + (digitsToNat fp : ℚ) / ((10 : ℚ) ^ fp.length)

/-- Python `str.title()`: the first letter of every maximal run of letters is
uppercased, the rest of the run lowercased; faithful on ASCII, where
`cased` coincides with `isAlpha`.  The `Bool` argument records whether the
previous character was a letter. -/
def pyTitleAux : Bool → List Char → List Char
  | _, [] => []
  | prev, c :: cs =>
    (if c.isAlpha then (if prev then c.toLower else c.toUpper) else c)
      :: pyTitleAux c.isAlpha cs

/-- Python `str.title()`. -/
def pyTitle (l : List Char) : List Char := pyTitleAux false l

/-- Python `" ".join(parts)`. -/
def joinSpace (parts : List (List Char)) : List Char :=
  List.intercalate [ ' ' ] parts

/-- The Python exceptions the modelled code can raise (`ValueError` with the
data its message carries, and the float conversion failure). -/
inductive PErr where
  | invalidWeight (amount : ℚ)
  | emptyUnit
  | invalidReps (reps : Int)
  | emptyName
  | floatError (s : List Char)
  | multipleUnits (units : List (List Char))
deriving DecidableEq

/-- `Weight` of `parser/model.py`: a dataclass with fields `amount` and
`unit`. -/
structure Weight where
  amount : ℚ
  unit : List Char
deriving DecidableEq

/-- `Set_` of `parser/model.py`: `repetitions` and a `weight`. -/
structure Set_ where
  repetitions : Int
  weight : Weight
deriving DecidableEq

/-- `Exercise` of `parser/model.py`: a name and the ordered list of sets. -/
structure Exercise where
  name : List Char
  sets_ : List Set_
deriving DecidableEq

/-- `Weight.__post_init__` / `_validate_weight`: the amount must be
non-negative and the unit non-empty, else `ValueError`. -/
def mkWeight (amount : ℚ) (unit : List Char) : Except PErr Weight :=
  if amount < 0 then .error (.invalidWeight amount)
  else if unit.isEmpty then .error .emptyUnit
  else .ok ⟨amount, unit⟩

/-- `Set_.__post_init__` / `_validate_set`: repetitions must be positive and
the weight valid, else `ValueError`.  The Python `isinstance` check is
statically guaranteed by the Lean types. -/
def mkSet (reps : Int) (w : Weight) : Except PErr Set_ :=
  if reps ≤ 0 then .error (.invalidReps reps)
  else if w.amount < 0 then .error (.invalidWeight w.amount)
  else if w.unit.isEmpty then .error .emptyUnit
  else .ok ⟨reps, w⟩

/-- The distinct units occurring in a set list, in first-occurrence order;
models `set(s.weight.unit for s in sets_)` of `Exercise.__post_init__`
(only its size and membership are ever used). -/
def unitsOf (sets : List Set_) : List (List Char) :=
  (sets.map (fun s => s.weight.unit)).dedup

/-- `Exercise.__post_init__`: constructing an `Exercise` raises `ValueError`
naming the units when the sets mix more than one weight unit. -/
def mkExercise (name : List Char) (sets : List Set_) : Except PErr Exercise :=
  if (unitsOf sets).length > 1 then .error (.multipleUnits (unitsOf sets))
  else .ok ⟨name, sets⟩

/-- The single-unit invariant as the source states it: at most one distinct
weight unit among the sets. -/
def sameUnits (sets : List Set_) : Bool := (unitsOf sets).length ≤ 1

/-- The unchecked attribute assignment `c.sets_ = ...` of
`Exercise.flatten` (model.py line 74): the dataclass is not frozen and no
validation runs on mutation. -/
def Exercise.setSets (e : Exercise) (l : List Set_) : Exercise :=
  { e with sets_ := l }

/-- `Set_.validate` / `_validate_set` as an explicit check. -/
def Set_.validateS (s : Set_) : Except PErr Unit :=
  if s.repetitions ≤ 0 then .error (.invalidReps s.repetitions)
  else if s.weight.amount < 0 then .error (.invalidWeight s.weight.amount)
  else if s.weight.unit.isEmpty then .error .emptyUnit
  else .ok ()

/-- `Exercise.validate`: non-empty name, the single-unit check, then each
set validated in order. -/
def Exercise.validate (e : Exercise) : Except PErr Unit :=
  if e.name.isEmpty then .error .emptyName
  else if (unitsOf e.sets_).length > 1 then .error (.multipleUnits (unitsOf e.sets_))
  else e.sets_.forM Set_.validateS

/-- The grouping key of `Exercise.flatten`: `lambda x: (x.weight,
x.repetitions)`. -/
def setKey (s : Set_) : Weight × Int := (s.weight, s.repetitions)

/-- Fuel-indexed run-length chunking: `itertools.groupby` splits a list into
maximal consecutive runs of equal key.  The fuel (always instantiated with
the list length) keeps the recursion structural so that the definition
evaluates by reduction. -/
def chunkByF : Nat → List Set_ → List (List Set_)
  | _, [] => []
  | 0, _ :: _ => []
  | n + 1, x :: xs =>
    (x :: xs.takeWhile (fun s => setKey s == setKey x))
      :: chunkByF n (xs.dropWhile (fun s => setKey s == setKey x))

/-- `itertools.groupby(sets_, key)` chunking used by `Exercise.flatten`. -/
def chunkBy (l : List Set_) : List (List Set_) := chunkByF l.length l

/-- `Exercise.flatten`: one deep-copied clone per maximal consecutive run of
equal `(weight, repetitions)`, the clone's `sets_` replaced by the run. -/
def Exercise.flatten (e : Exercise) : List Exercise :=
  (chunkBy e.sets_).map (fun run => e.setSets run)

/-- `Exercise.total_volume`: left fold of `repetitions * weight.amount`
starting from `0`, in set order. -/
def total_volume (e : Exercise) : ℚ :=
  e.sets_.foldl (fun acc s => acc + (s.repetitions : ℚ) * s.weight.amount) 0

/-- Python `float(s)` on the decimal numerals this parser feeds it
(`digits`, optionally a dot and more digits, as produced by the regexes or
handed over verbatim in the fixed-reps branch); any other string is a
conversion `ValueError`. -/
def pyFloat (s : List Char) : Except PErr ℚ :=
  let ip := s.takeWhile isDigitChar
  let r := s.drop ip.length
  if ip.isEmpty then .error (.floatError s)
  else
    match r with
    | [] => .ok (digitsToNat ip : ℚ)
    | '.' :: fp =>
      if fp.all isDigitChar then .ok (decimalValue ip fp)
      else .error (.floatError s)
    | _ => .error (.floatError s)

/-- `simple_parser.parse_weight`: strip, honour an optional trailing `k`,
convert to float, unit always `kg`. -/
def parse_weight (w0 : List Char) : Except PErr Weight := do
  let w := pyStrip w0
  let num := if w.getLast? == some 'k' then w.dropLast else w
  let a ← pyFloat num
  mkWeight a (pystr "kg")

/-- The leading-weight regex of `parse_set_notation`
(line 56): `^(\d+(?:\.\d+)?k?)\s*:?\s*`.  All quantifiers resolve greedily
and no backtracking can change the outcome, so the match is the
deterministic scan below.  Returns the captured group and the text after
the match end, or `none` when the string does not start with a digit. -/
def matchLeadingWeight (s : List Char) : Option (List Char × List Char) :=
  let d1 := s.takeWhile isDigitChar
  if d1.isEmpty then none
  else
    let r1 := s.drop d1.length
    let (num1, r2) :=
      match r1 with
      | '.' :: rest =>
        let d2 := rest.takeWhile isDigitChar
        if d2.isEmpty then (d1, r1) else (d1 ++ '.' :: d2, rest.drop d2.length)
      | _ => (d1, r1)
    let (num2, r3) :=
      match r2 with
      | 'k' :: rest => (num1 ++ [ 'k' ], rest)
      | _ => (num1, r2)
    let r4 := r3.dropWhile isPyWs
    let r5 := match r4 with | ':' :: rest => rest | _ => r4
    some (num2, r5.dropWhile isPyWs)

/-- The pair regex `^(\d+)\s*x\s*(\d+)$` of the `NxM` branch: the whole
string must consist of digits, optional whitespace, `x`, optional
whitespace and digits. -/
def matchPair (s : List Char) : Option (Nat × Nat) :=
  let d1 := s.takeWhile isDigitChar
  if d1.isEmpty then none
  else
    let r1 := (s.drop d1.length).dropWhile isPyWs
    match r1 with
    | 'x' :: rest =>
      let r2 := rest.dropWhile isPyWs
      let d2 := r2.takeWhile isDigitChar
      if d2.isEmpty then none
      else if (r2.drop d2.length).isEmpty then some (digitsToNat d1, digitsToNat d2)
      else none
    | _ => none

/-- Exact match of the anchored numeral-with-optional-suffix pattern
`\d+(?:\.\d+)?k?$` used as the third group of the triple regex. -/
def isNumToken (s : List Char) : Bool :=
  let d1 := s.takeWhile isDigitChar
  if d1.isEmpty then false
  else
    match s.drop d1.length with
    | [] => true
    | [ 'k' ] => true
    | '.' :: rest =>
      let d2 := rest.takeWhile isDigitChar
      if d2.isEmpty then false
      else
        match rest.drop d2.length with
        | [] => true
        | [ 'k' ] => true
        | _ => false
    | _ => false

/-- The triple regex `^(\d+)\s*x\s*(\d+)\s*x\s*(\d+(?:\.\d+)?k?)$` of the
`NxMxW` branch; returns the two counts and the weight group. -/
def matchTriple (s : List Char) : Option (Nat × Nat × List Char) :=
  let d1 := s.takeWhile isDigitChar
  if d1.isEmpty then none
  else
    let r1 := (s.drop d1.length).dropWhile isPyWs
    match r1 with
    | 'x' :: rest1 =>
      let r2 := (rest1.dropWhile isPyWs)
      let d2 := r2.takeWhile isDigitChar
      if d2.isEmpty then none
      else
        let r3 := (r2.drop d2.length).dropWhile isPyWs
        match r3 with
        | 'x' :: rest2 =>
          let r4 := rest2.dropWhile isPyWs
          if isNumToken r4 then some (digitsToNat d1, digitsToNat d2, r4)
          else none
        | _ => none
    | _ => none

/-- The fixed-reps regex `^(\d+)\s*xx\s*(.+)$` of the `Rxx...` branch.  The
trailing `(.+)` is greedy but must stay non-empty, so when everything after
`xx` is whitespace the final `\s*` gives one character back to it. -/
def matchFixedReps (s : List Char) : Option (Nat × List Char) :=
  let d1 := s.takeWhile isDigitChar
  if d1.isEmpty then none
  else
    let r1 := (s.drop d1.length).dropWhile isPyWs
    match r1 with
    | 'x' :: 'x' :: rest =>
      let w := rest.takeWhile isPyWs
      let tail := rest.drop w.length
      if ¬ tail.isEmpty then some (digitsToNat d1, tail)
      else if ¬ w.isEmpty then some (digitsToNat d1, w.drop (w.length - 1))
      else none
    | _ => none

/-- The bare-number regex `^\d+$` of the Single branch. -/
def matchSingle (s : List Char) : Bool := !s.isEmpty && s.all isDigitChar

/-- The shape-probing tail of the `parse_set_notation` loop body once the
fixed-reps branch has not fired: the `NxMxW`, `NxM` and bare-number probes
in source order.  A probe whose regex fails falls through, and the later
probes then necessarily fail too (their shapes are disjoint), so the set
list is returned unchanged.  The Python loop constructs each `Set_` inside
`for _ in range(...)`, so a zero count constructs nothing (and raises
nothing) while the triple branch's weight is parsed before its loop. -/
def processPartCore (leading : Option Weight) (sets : List Set_) (part : List Char) :
    Except PErr (List Set_) :=
  if countChar 'x' part = 2 then
    match matchTriple part with
    | some (n, m, ws) => do
      let w ← parse_weight ws
      if n = 0 then .ok sets
      else do
        let st ← mkSet (m : Int) w
        .ok (sets ++ List.replicate n st)
    | none => .ok sets
  else if countChar 'x' part = 1 then
    match matchPair part with
    | some (n, m) =>
      match leading with
      | some w =>
        if n = 0 then .ok sets
        else do
          let st ← mkSet (m : Int) w
          .ok (sets ++ List.replicate n st)
      | none => .ok sets
    | none => .ok sets
  else if matchSingle part then
    match leading with
    | some w => do
      let st ← mkSet ((digitsToNat part : Nat) : Int) w
      .ok (sets ++ [ st ])
    | none => .ok sets
  else .ok sets

/-- One iteration of the `for part in parts` loop of
`parse_set_notation`: strip, skip empties, try the fixed-multi-weight
branch when `xx` occurs (falling through when its regex fails), then the
remaining probes. -/
def processPart (leading : Option Weight) (sets : List Set_) (part0 : List Char) :
    Except PErr (List Set_) :=
  let part := pyStrip part0
  if part.isEmpty then .ok sets
  else if containsXX part then
    match matchFixedReps part with
    | some (reps, weightsStr) =>
      (pySplitChar ',' weightsStr).foldlM
        (fun acc ws => do
          let w ← parse_weight (pyStrip ws)
          let st ← mkSet (reps : Int) w
          pure (acc ++ [ st ]))
        sets
    | none => processPartCore leading sets part
  else processPartCore leading sets part

/-- `simple_parser.parse_set_notation`: strip, read an optional leading
weight prefix into the current-weight register, split the rest on commas
and run the per-part probes left to right. -/
def parse_set_notation (s0 : List Char) : Except PErr (List Set_) := do
  let s := pyStrip s0
  let (leading, remaining) ←
    match matchLeadingWeight s with
    | some (g1, rest) => do
      let w ← parse_weight g1
      pure ((some w : Option Weight), pyStrip rest)
    | none => pure ((none : Option Weight), s)
  let parts := (pySplitChar ',' remaining).map pyStrip
  parts.foldlM (fun acc p => processPart leading acc p) []

/-- The `known_exercises` list of `parse_exercise_line`, in source order. -/
def knownExercises : List (List Char) :=
  [ pystr "Deadlift", pystr "Squat", pystr "Bench press", pystr "Overhead press",
    pystr "Row", pystr "Pull-ups", pystr "Push-ups", pystr "Dips", pystr "Leg press",
    pystr "Leg curl", pystr "Leg extension", pystr "Lat pulldown", pystr "Chest fly",
    pystr "Shoulder press", pystr "Military press", pystr "Barbell curl", pystr "Dumbbell curl" ]

/-- Stable insertion of a string into a list kept sorted by decreasing
length: the new element goes after every element at least as long. -/
def insertByLenDesc (s : List Char) : List (List Char) → List (List Char)
  | [] => [ s ]
  | t :: ts => if t.length < s.length then s :: t :: ts else t :: insertByLenDesc s ts

/-- Python `sorted(known_exercises, key=len, reverse=True)`: a stable sort
by decreasing length (equal lengths keep their original order). -/
def pySortedByLenDesc (l : List (List Char)) : List (List Char) :=
  l.foldl (fun acc s => insertByLenDesc s acc) []

/-- The probe order of the known-exercise loop. -/
def sortedKnownExercises : List (List Char) := pySortedByLenDesc knownExercises

/-- Group 2 of the fallback name regex `^([^:0-9]+?)\s*[:]?\s*(.+)$`,
computed on the text after the one-character group 1, following the
backtracking order of the Python engine (maximal leading `\s*`, prefer
consuming `:`, maximal second `\s*`, and quantifiers give characters back
to the mandatory `(.+)` when it would be empty).  Only called with `t`
non-empty. -/
def fallbackGroup2 (t : List Char) : List Char :=
  let a := t.dropWhile isPyWs
  match a with
  | [] => t.drop (t.length - 1)
  | ':' :: a2 =>
    let b := a2.dropWhile isPyWs
    if ¬ b.isEmpty then b
    else if ¬ a2.isEmpty then a2.drop (a2.length - 1)
    else [ ':' ]
  | _ => a

/-- The fallback name regex `^([^:0-9]+?)\s*[:]?\s*(.+)$` of
`parse_exercise_line`.  The non-greedy group 1 settles on the shortest
length that lets the rest match; since `(.+)` matches any non-empty
remainder, that is always a single character, and a match exists exactly
when the first character is neither `:` nor a digit and at least one more
character follows. -/
def fallbackNameMatch (line : List Char) : Option (List Char × List Char) :=
  match line with
  | [] => none
  | c :: rest =>
    if c = ':' ∨ c.isDigit ∨ rest.isEmpty then none
    else some ([ c ], fallbackGroup2 rest)

/-- The tail of `parse_exercise_line` once a name and the remaining text
are fixed: parse the sets; a non-empty set list is wrapped in an
`Exercise` (running the constructor validation), an empty one yields
`None`. -/
def finishExerciseLine (name remaining : List Char) : Except PErr (Option Exercise) := do
  let sets ← parse_set_notation remaining
  if sets.isEmpty then pure none
  else do
    let ex ← mkExercise name sets
    pure (some ex)

/-- `simple_parser.parse_exercise_line`: strip the line, try the known
exercise names in length-descending order as case-insensitive prefixes,
fall back to the name regex, then parse the remaining text as sets. -/
def parse_exercise_line (line0 : List Char) : Except PErr (Option Exercise) :=
  let line := pyStrip line0
  if line.isEmpty then .ok none
  else
    let found :=
      match sortedKnownExercises.find? (fun ex => (pyLower ex).isPrefixOf (pyLower line)) with
      | some ex => some (ex, pyStrip (line.drop ex.length))
      | none =>
        match fallbackNameMatch line with
        | some (g1, g2) => some (pyStrip g1, pyStrip g2)
        | none => none
    match found with
    | none => .ok none
    | some (name, remaining) =>
      if name.isEmpty then .ok none
      else finishExerciseLine name remaining

/-- A synonym-table entry of `StandardizeName`: a clean replacement phrase
and the synonym strings it replaces. -/
structure SynonymEntry where
  clean : List Char
  synonyms : List (List Char)
deriving DecidableEq

/-- The synonym table hard-coded in `StandardizeName.__init__`. -/
def defaultSynonyms : List SynonymEntry :=
  [ ⟨pystr "overhead press", [ pystr "oh", pystr "op" ]⟩,
    ⟨pystr "inclined bench press", [ pystr "ibp" ]⟩,
    ⟨pystr "bench press", [ pystr "bench", pystr "bp" ]⟩,
    ⟨pystr "machine lateral pull-down",
      [ pystr "lat pull-down", pystr "lat pull down", pystr "mlpd" ]⟩,
    ⟨pystr "lateral pull-down", [ pystr "lpd" ]⟩,
    ⟨pystr "machine row", [ pystr "mr" ]⟩,
    ⟨pystr "low row", [ pystr "lr" ]⟩,
    ⟨pystr "row", [ pystr "r" ]⟩,
    ⟨pystr "barbell row", [ pystr "br" ]⟩,
    ⟨pystr "squat", [ pystr "s" ]⟩,
    ⟨pystr "deadlift", [ pystr "d" ]⟩,
    ⟨pystr "leg extension", [ pystr "le" ]⟩,
    ⟨pystr "leg curl", [ pystr "lc" ]⟩,
    ⟨pystr "machine", [ pystr "m" ]⟩,
    ⟨pystr "smith machine", [ pystr "sm" ]⟩ ]

/-- The inner loops of `StandardizeName._original_or_synonym` for one word
token: every synonym of every entry is compared with the stripped token,
and each match appends that entry's clean phrase, in table order. -/
def matchesOfPart (part : List Char) : List SynonymEntry → List (List Char)
  | [] => []
  | g :: gs =>
    ((g.synonyms.filter (fun syn => pyStrip part == pyCasefold syn)).map
        (fun _ => g.clean))
      ++ matchesOfPart part gs

/-- What one token contributes to the rebuilt name: its clean replacements
when any synonym matched, otherwise the token itself. -/
def expandPart (syns : List SynonymEntry) (part : List Char) : List (List Char) :=
  let ms := matchesOfPart part syns
  if ms.isEmpty then [ part ] else ms

/-- `StandardizeName._original_or_synonym`: strip and casefold the raw
name, split it on single spaces, substitute each token, and rejoin with
single spaces. -/
def originalOrSynonym (syns : List SynonymEntry) (raw : List Char) : List Char :=
  joinSpace (((pySplitChar ' ' (pyCasefold (pyStrip raw)))).flatMap (expandPart syns))

/-- `StandardizeName.run`: substitute synonyms, then title-case and strip
trailing whitespace. -/
def StandardizeName.run (syns : List SynonymEntry) (raw : List Char) : List Char :=
  pyRStrip (pyTitle (originalOrSynonym syns raw))

/-- `StandardizeName.all_elements_are_different`:
`len(set(values)) == len(values)`, the Python set modelled by `dedup`. -/
def all_elements_are_different (values : List (List Char)) : Bool :=
  values.dedup.length == values.length

/-- `StandardizeName._check_synonym_configuration` inside `__init__`,
modelled with the table as a parameter (the source hard-codes
`defaultSynonyms`): first the no-overlapping-synonyms assertion over the
chained synonym lists, then the no-repeating-clean-names assertion; an
`assert` failure is an `AssertionError`. -/
def mkStandardizeName (syns : List SynonymEntry) : Except Unit (List SynonymEntry) :=
  if ¬ all_elements_are_different (syns.flatMap (fun g => g.synonyms)) then .error ()
  else if ¬ all_elements_are_different (syns.map (fun g => g.clean)) then .error ()
  else .ok syns

/-- The synonym table with every space-containing synonym string removed
from its entry; the reference configuration for stating that multi-word
synonyms are dead. -/
def dropMultiwordSyns (syns : List SynonymEntry) : List SynonymEntry :=
  syns.map (fun g => ⟨g.clean, g.synonyms.filter (fun s => decide (' ' ∉ s))⟩)

/-- Whether a synonym table contains some synonym with an embedded space. -/
def hasMultiwordSynonym (syns : List SynonymEntry) : Bool :=
  syns.any (fun g => g.synonyms.any (fun s => decide (' ' ∈ s)))

/-- Two runs are key-disjoint when no set of the first shares its
`(weight, repetitions)` key with a set of the second. -/
def KeyDisjoint (c d : List Set_) : Prop :=
  ∀ a ∈ c, ∀ b ∈ d, setKey a ≠ setKey b

/-- `chunks` is the run-length partition of `l`: the chunks concatenate
back to `l`, none is empty, each is constant on the `(weight,
repetitions)` key, and adjacent chunks carry different keys (so each run
is maximal). -/
def IsRunPartition (l : List Set_) (chunks : List (List Set_)) : Prop :=
  chunks.flatten = l ∧
  (∀ c ∈ chunks, c ≠ []) ∧
  (∀ c ∈ chunks, ∀ a ∈ c, ∀ b ∈ c, setKey a = setKey b) ∧
  List.Chain' KeyDisjoint chunks

/-- A 5-repetition set at 100 kg. -/
def kgSet : Set_ := ⟨5, ⟨100, pystr "kg"⟩⟩

/-- A 5-repetition set at 100 lb, used to exhibit unit mixing. -/
def lbSet : Set_ := ⟨5, ⟨100, pystr "lb"⟩⟩

/-- A validly constructed one-set kilogram exercise. -/
def benchKg : Exercise := ⟨pystr "Bench press", [ kgSet ]⟩

/-- A 4-repetition set at 10 kg. -/
def setA : Set_ := ⟨4, ⟨10, pystr "kg"⟩⟩

/-- A 5-repetition set at 10 kg. -/
def setB : Set_ := ⟨5, ⟨10, pystr "kg"⟩⟩

/-- An exercise whose equal first and third sets are separated by a
different set: its runs are `[setA]`, `[setB]`, `[setA]`. -/
def exRunsABA : Exercise := ⟨pystr "Bench press", [ setA, setB, setA ]⟩

/-- A configuration listing the synonym `bp` in two entries. -/
def dupConfig : List SynonymEntry :=
  [ ⟨pystr "bench press", [ pystr "bp" ]⟩,
    ⟨pystr "barbell press", [ pystr "bp" ]⟩ ]

theorem dropWhile_cons_false {α : Type} (p : α → Bool) :
    ∀ (l : List α) (z : α) (zs : List α), l.dropWhile p = z :: zs → p z = false := by
  intro l
  induction l with
  | nil => intro z zs h; simp [List.dropWhile] at h
  | cons a as ih =>
    intro z zs h
    by_cases hpa : p a
    · rw [List.dropWhile_cons_of_pos hpa] at h
      exact ih z zs h
    · rw [List.dropWhile_cons_of_neg hpa] at h
      cases h
      simpa using hpa

theorem chunkByF_flatten :
    ∀ (n : Nat) (l : List Set_), l.length ≤ n → (chunkByF n l).flatten = l := by
  intro n
  induction n with
  | zero =>
    intro l h
    cases l with
    | nil => rfl
    | cons x xs => simp at h
  | succ n ih =>
    intro l h
    cases l with
    | nil => rfl
    | cons x xs =>
      have hd : (xs.dropWhile (fun s => setKey s == setKey x)).length ≤ n := by
        have h1 := (List.dropWhile_sublist (l := xs)
          (p := fun s => setKey s == setKey x)).length_le
        simp at h
        omega
      simp only [chunkByF, List.flatten_cons, ih _ hd, List.cons_append,
        List.takeWhile_append_dropWhile]

theorem mem_chunkByF_ne_nil :
    ∀ (n : Nat) (l : List Set_) (c : List Set_), c ∈ chunkByF n l → c ≠ [] := by
  intro n
  induction n with
  | zero =>
    intro l c hc
    cases l <;> simp [chunkByF] at hc
  | succ n ih =>
    intro l c hc
    cases l with
    | nil => simp [chunkByF] at hc
    | cons x xs =>
      simp only [chunkByF, List.mem_cons] at hc
      rcases hc with rfl | hc
      · simp
      · exact ih _ c hc

theorem mem_chunkByF_key :
    ∀ (n : Nat) (l : List Set_) (c : List Set_), c ∈ chunkByF n l →
      ∀ a ∈ c, ∀ b ∈ c, setKey a = setKey b := by
  intro n
  induction n with
  | zero =>
    intro l c hc
    cases l <;> simp [chunkByF] at hc
  | succ n ih =>
    intro l c hc
    cases l with
    | nil => simp [chunkByF] at hc
    | cons x xs =>
      simp only [chunkByF, List.mem_cons] at hc
      rcases hc with rfl | hc
      · intro a ha b hb
        have key_of : ∀ u ∈ x :: xs.takeWhile (fun s => setKey s == setKey x),
            setKey u = setKey x := by
          intro u hu
          rcases List.mem_cons.1 hu with rfl | hu
          · rfl
          · have hp := List.mem_takeWhile_imp hu
            simpa using hp
        rw [key_of a ha, key_of b hb]
      · exact ih _ c hc

theorem chunkByF_chain :
    ∀ (n : Nat) (l : List Set_), l.length ≤ n →
      List.Chain' KeyDisjoint (chunkByF n l) := by
  intro n
  induction n with
  | zero =>
    intro l h
    cases l with
    | nil => simp [chunkByF]
    | cons x xs => simp at h
  | succ n ih =>
    intro l h
    cases l with
    | nil => simp [chunkByF]
    | cons x xs =>
      have hd : (xs.dropWhile (fun s => setKey s == setKey x)).length ≤ n := by
        have h1 := (List.dropWhile_sublist (l := xs)
          (p := fun s => setKey s == setKey x)).length_le
        simp at h
        omega
      simp only [chunkByF]
      rw [List.chain'_cons']
      refine ⟨?_, ih _ hd⟩
      intro y hy
      cases hdrop : xs.dropWhile (fun s => setKey s == setKey x) with
      | nil => rw [hdrop] at hy; simp [chunkByF] at hy
      | cons z zs =>
        rw [hdrop] at hy
        cases n with
        | zero => rw [hdrop] at hd; simp at hd
        | succ m =>
          simp only [chunkByF, List.head?_cons, Option.mem_some_iff] at hy
          have hz : setKey z ≠ setKey x := by
            have := dropWhile_cons_false (fun s => setKey s == setKey x) xs z zs hdrop
            simpa using this
          intro a ha b hb
          have hax : setKey a = setKey x := by
            rcases List.mem_cons.1 ha with rfl | ha
            · rfl
            · have hp := List.mem_takeWhile_imp ha
              simpa using hp
          have hbz : setKey b = setKey z := by
            rw [← hy] at hb
            rcases List.mem_cons.1 hb with rfl | hb
            · rfl
            · have hp := List.mem_takeWhile_imp hb
              simpa using hp
          rw [hax, hbz]
          exact fun hcontra => hz hcontra.symm

theorem chunkBy_of_const (l : List Set_) (hne : l ≠ [])
    (hc : ∀ a ∈ l, ∀ b ∈ l, setKey a = setKey b) : chunkBy l = [ l ] := by
  cases l with
  | nil => exact absurd rfl hne
  | cons x xs =>
    have htake : xs.takeWhile (fun s => setKey s == setKey x) = xs := by
      rw [List.takeWhile_eq_self_iff]
      intro a ha
      exact beq_iff_eq.2 (hc a (List.mem_cons_of_mem _ ha) x (List.mem_cons_self x xs))
    have hdrop : xs.dropWhile (fun s => setKey s == setKey x) = [] := by
      rw [List.dropWhile_eq_nil_iff]
      intro a ha
      exact beq_iff_eq.2 (hc a (List.mem_cons_of_mem _ ha) x (List.mem_cons_self x xs))
    simp [chunkBy, chunkByF, htake, hdrop]

theorem foldl_add_vol (l : List Set_) :
    ∀ a : ℚ, l.foldl (fun acc s => acc + (s.repetitions : ℚ) * s.weight.amount) a
      = a + (l.map (fun s => (s.repetitions : ℚ) * s.weight.amount)).sum := by
  induction l with
  | nil => intro a; simp
  | cons x xs ih =>
    intro a
    simp only [List.foldl_cons, List.map_cons, List.sum_cons, ih]
    ring

theorem total_volume_eq_sum (e : Exercise) :
    total_volume e = (e.sets_.map (fun s => (s.repetitions : ℚ) * s.weight.amount)).sum := by
  unfold total_volume
  rw [foldl_add_vol]
  ring

theorem sum_map_flatten_vol (chunks : List (List Set_)) :
    ((chunks.flatten).map (fun s => (s.repetitions : ℚ) * s.weight.amount)).sum
      = (chunks.map (fun run =>
          (run.map (fun s => (s.repetitions : ℚ) * s.weight.amount)).sum)).sum := by
  induction chunks with
  | nil => simp
  | cons c cs ih =>
    simp only [List.flatten_cons, List.map_append, List.sum_append, ih,
      List.map_cons, List.sum_cons]

theorem pySplitChar_ne_nil (c : Char) (l : List Char) : pySplitChar c l ≠ [] := by
  induction l with
  | nil => simp [pySplitChar]
  | cons x xs ih =>
    by_cases hx : x = c
    · simp [pySplitChar, hx]
    · simp only [pySplitChar, if_neg hx]
      cases h : pySplitChar c xs with
      | nil => simp
      | cons r rs => simp

theorem mem_pySplitChar_not_mem (c : Char) :
    ∀ (l : List Char) (p : List Char), p ∈ pySplitChar c l → c ∉ p := by
  intro l
  induction l with
  | nil =>
    intro p hp
    simp [pySplitChar] at hp
    simp [hp]
  | cons x xs ih =>
    intro p hp
    by_cases hx : x = c
    · simp only [pySplitChar, if_pos hx, List.mem_cons] at hp
      rcases hp with rfl | hp
      · simp
      · exact ih p hp
    · simp only [pySplitChar, if_neg hx] at hp
      cases h : pySplitChar c xs with
      | nil => exact absurd h (pySplitChar_ne_nil c xs)
      | cons r rs =>
        rw [h] at hp
        rcases List.mem_cons.1 hp with rfl | hp
        · intro hc
          rcases List.mem_cons.1 hc with rfl | hc
          · exact hx rfl
          · exact ih r (h ▸ List.mem_cons_self r rs) hc
        · exact ih p (h ▸ List.mem_cons_of_mem r hp)

theorem not_mem_pyStrip {c : Char} {p : List Char} (h : c ∉ p) : c ∉ pyStrip p := by
  intro hc
  apply h
  unfold pyStrip pyRStrip pyLStrip at hc
  rw [List.mem_reverse] at hc
  have h1 := (List.dropWhile_sublist (p := isPyWs)).subset hc
  rw [List.mem_reverse] at h1
  exact (List.dropWhile_sublist (p := isPyWs)).subset h1

theorem space_mem_pyCasefold {s : List Char} (h : ' ' ∈ s) : ' ' ∈ pyCasefold s := by
  unfold pyCasefold
  exact List.mem_map.2 ⟨' ', h, by decide⟩

theorem matchesOfPart_drop (part : List Char) (hp : ' ' ∉ pyStrip part) :
    ∀ syns : List SynonymEntry,
      matchesOfPart part (dropMultiwordSyns syns) = matchesOfPart part syns := by
  intro syns
  induction syns with
  | nil => rfl
  | cons g gs ih =>
    show matchesOfPart part (⟨g.clean, _⟩ :: dropMultiwordSyns gs) = _
    simp only [matchesOfPart, ih]
    congr 1
    rw [List.filter_filter]
    congr 1
    apply List.filter_congr
    intro syn _
    cases hmt : (pyStrip part == pyCasefold syn) with
    | false => simp
    | true =>
      have heq : pyStrip part = pyCasefold syn := by simpa using hmt
      have hsp : ' ' ∉ syn := by
        intro hsyn
        exact hp (heq ▸ space_mem_pyCasefold hsyn)
      simp [hsp]

theorem run_dropMultiword (syns : List SynonymEntry) (raw : List Char) :
    StandardizeName.run (dropMultiwordSyns syns) raw = StandardizeName.run syns raw := by
  unfold StandardizeName.run originalOrSynonym
  congr 1
  congr 1
  congr 1
  apply List.flatMap_congr
  intro part hpart
  have hp : ' ' ∉ pyStrip part := by
    apply not_mem_pyStrip
    exact mem_pySplitChar_not_mem ' ' _ part hpart
  unfold expandPart
  rw [matchesOfPart_drop part hp]

theorem all_elements_are_different_iff (l : List (List Char)) :
    all_elements_are_different l = true ↔ l.Nodup := by
  unfold all_elements_are_different
  rw [beq_iff_eq]
  constructor
  · intro h
    have hsub := List.dedup_sublist l
    have : l.dedup = l := hsub.eq_of_length h
    exact this ▸ l.nodup_dedup
  · intro h
    rw [List.dedup_eq_self.2 h]

theorem count_le_one_containsXX_false :
    ∀ l : List Char, countChar 'x' l ≤ 1 → containsXX l = false := by
  intro l
  induction l with
  | nil => intro _; rfl
  | cons a as ih =>
    intro h
    cases as with
    | nil => rfl
    | cons b bs =>
      have hcount : countChar 'x' (b :: bs) ≤ countChar 'x' (a :: b :: bs) := by
        simp only [countChar, List.count_cons]
        omega
      simp only [containsXX, Bool.or_eq_false_iff]
      constructor
      · cases hax : (a == 'x') with
        | false => simp
        | true =>
          cases hbx : (b == 'x') with
          | false => simp
          | true =>
            exfalso
            have ha : a = 'x' := by simpa using hax
            have hb : b = 'x' := by simpa using hbx
            subst ha hb
            simp [countChar, List.count_cons] at h
      · exact ih (le_trans hcount h)

theorem all_digits_count_x_zero {l : List Char} (h : l.all isDigitChar = true) :
    countChar 'x' l = 0 := by
  rw [countChar, List.count_eq_zero]
  intro hx
  have := List.all_eq_true.1 h 'x' hx
  simp [isDigitChar] at this

theorem chunkBy_flatten (l : List Set_) : (chunkBy l).flatten = l :=
  chunkByF_flatten l.length l le_rfl

theorem flatten_map_sets (e : Exercise) :
    (Exercise.flatten e).map (fun g => g.sets_) = chunkBy e.sets_ := by
  unfold Exercise.flatten
  rw [List.map_map]
  simp [Function.comp_def, Exercise.setSets]

theorem flatten_names (e : Exercise) :
    (Exercise.flatten e).map (fun g => g.name)
      = List.replicate (Exercise.flatten e).length e.name := by
  unfold Exercise.flatten
  rw [List.map_map, List.length_map]
  simp only [Function.comp_def, Exercise.setSets]
  exact List.map_const' _ e.name

/-- Claim C1: parsing the block `Bench press 10k: 4, 4x5` succeeds and
yields exactly one Exercise named `Bench press` whose sets are, in order,
one set of 4 repetitions at 10 kg followed by four sets of 5 repetitions
at 10 kg: the prefix `10k` sets the current-weight register, the Single
form `4` emits one set at that weight, and the Pair form `4x5` emits four
sets of five repetitions at the same weight. -/
theorem c1_bench_press_parse :
    parse_exercise_line (pystr "Bench press 10k: 4, 4x5") =
      .ok (some ⟨pystr "Bench press",
        [ ⟨4, ⟨10, pystr "kg"⟩⟩, ⟨5, ⟨10, pystr "kg"⟩⟩, ⟨5, ⟨10, pystr "kg"⟩⟩,
          ⟨5, ⟨10, pystr "kg"⟩⟩, ⟨5, ⟨10, pystr "kg"⟩⟩ ]⟩) := by
  rfl

/-- Claim C2 counterexample: the block `Squat: 4x5, 1x6x100k` contains the
Pair form `4x5` while no weight-prefix has set the current-weight
register, yet parsing does not fail with a parse error — it succeeds and
even produces an Exercise (from the self-contained Triple group), the
weightless Pair form having been silently skipped. -/
theorem c2_counterexample :
    parse_exercise_line (pystr "Squat: 4x5, 1x6x100k") =
      .ok (some ⟨pystr "Squat", [ ⟨6, ⟨100, pystr "kg"⟩⟩ ]⟩) := by
  rfl

/-- Claim C2 (amended): a Pair form `N x M` or a bare-integer Single form
reached while the current-weight register is unset emits no sets and
raises no error: the group is silently skipped and the set list is
returned unchanged. -/
theorem c2_silent_skip (sets : List Set_) (part : List Char)
    (h : (countChar 'x' (pyStrip part) = 1 ∧ (matchPair (pyStrip part)).isSome = true)
        ∨ matchSingle (pyStrip part) = true) :
    processPart none sets part = .ok sets := by
  rcases h with ⟨hcount, hsome⟩ | hsingle
  · have hne : (pyStrip part).isEmpty = false := by
      cases hp : pyStrip part with
      | nil => rw [hp] at hcount; simp [countChar] at hcount
      | cons a as => simp
    have hxx : containsXX (pyStrip part) = false :=
      count_le_one_containsXX_false _ (by omega)
    obtain ⟨nm, hnm⟩ := Option.isSome_iff_exists.1 hsome
    simp [processPart, processPartCore, hne, hxx, hcount, hnm]
  · have hand := hsingle
    unfold matchSingle at hand
    rw [Bool.and_eq_true] at hand
    have hne : (pyStrip part).isEmpty = false := by
      cases hb : (pyStrip part).isEmpty
      · rfl
      · rw [hb] at hand; simp at hand
    have hcount0 : countChar 'x' (pyStrip part) = 0 := all_digits_count_x_zero hand.2
    have hxx : containsXX (pyStrip part) = false :=
      count_le_one_containsXX_false _ (by omega)
    simp [processPart, processPartCore, hne, hxx, hcount0, hsingle]

/-- Claim C2 witness: the Pair part `4x5` and the Single part `20`, with
the register unset, both leave the set list untouched and raise nothing. -/
theorem c2_silent_skip_witness :
    processPart none [] (pystr "4x5") = .ok [] ∧
    processPart none [ kgSet ] (pystr "20") = .ok [ kgSet ] :=
  ⟨c2_silent_skip [] (pystr "4x5") (Or.inl ⟨by decide, by decide⟩),
   c2_silent_skip [ kgSet ] (pystr "20") (Or.inr (by decide))⟩

/-- Claim C3: evaluating the code at the failing input — parsing
`Deadlift: 1x20x20l` does NOT raise a parse error in
`simple_parser.parse_exercise_line`: the malformed group falls through
every probe, the set list stays empty and the function silently returns
`None`, while the claim (and the repository's ANTLR-path test
`test_raise_error_on_wrong_input`) require an error to be raised. -/
theorem c3_invalid_suffix_silent :
    parse_exercise_line (pystr "Deadlift: 1x20x20l") = .ok none := by
  rfl

/-- Claim C4 counterexample: a validly constructed kilogram Exercise,
mutated through the source's own unchecked `sets_` assignment (the one
`flatten` uses), becomes an observable Exercise mixing `kg` and `lb`:
the mutation raises no error, contradicting the claim that mutating an
Exercise into mixed units fails at the first offending addition and that
no mixed-unit Exercise ever becomes observable.  The code's own
`validate` confirms the result is mixed. -/
theorem c4_counterexample :
    mkExercise (pystr "Bench press") [ kgSet ] = .ok benchKg ∧
    benchKg.setSets [ kgSet, lbSet ] = ⟨pystr "Bench press", [ kgSet, lbSet ]⟩ ∧
    sameUnits [ kgSet, lbSet ] = false ∧
    Exercise.validate ⟨pystr "Bench press", [ kgSet, lbSet ]⟩ =
      .error (.multipleUnits [ pystr "kg", pystr "lb" ]) := by
  refine ⟨by rfl, by rfl, by rfl, by rfl⟩

/-- Claim C4 (amended): the single-unit invariant is enforced at
construction only — every Exercise accepted by the constructor satisfies
it, and constructing one whose sets mix two units fails with an error
naming the conflicting units (the error payload lists the distinct units,
at least two, and the unit of every set) — but set mutation performs no
validation, so a mixed-unit Exercise can still become observable by
mutating a validly constructed one. -/
theorem c4_construction_validates (name : List Char) (sets : List Set_) :
    (∀ ex : Exercise, mkExercise name sets = .ok ex → sameUnits ex.sets_ = true) ∧
    (sameUnits sets = false →
      mkExercise name sets = .error (.multipleUnits (unitsOf sets)) ∧
      2 ≤ (unitsOf sets).length ∧
      sets.all (fun s => decide (s.weight.unit ∈ unitsOf sets)) = true) := by
  constructor
  · intro ex hex
    unfold mkExercise at hex
    split at hex
    · exact absurd hex (by simp)
    · rename_i hle
      have hxe : ex = ⟨name, sets⟩ := by
        cases hex
        rfl
      subst hxe
      show sameUnits sets = true
      unfold sameUnits
      apply decide_eq_true
      omega
  · intro hf
    have hgt : (unitsOf sets).length > 1 := by
      unfold sameUnits at hf
      rcases Nat.lt_or_ge 1 (unitsOf sets).length with h | h
      · exact h
      · rw [decide_eq_false_iff_not] at hf
        exact absurd h hf
    refine ⟨?_, hgt, ?_⟩
    · unfold mkExercise
      rw [if_pos hgt]
    · rw [List.all_eq_true]
      intro s hs
      apply decide_eq_true
      unfold unitsOf
      exact List.mem_dedup.2 (List.mem_map.2 ⟨s, hs, rfl⟩)

/-- Claim C4 witness: the mixed list `[kgSet, lbSet]` is rejected at
construction with the error naming both units, and the construction that
produced `benchKg` guarantees its single-unit invariant. -/
theorem c4_construction_validates_witness :
    mkExercise (pystr "Bench press") [ kgSet, lbSet ]
      = .error (.multipleUnits (unitsOf [ kgSet, lbSet ])) ∧
    2 ≤ (unitsOf [ kgSet, lbSet ]).length ∧
    sameUnits benchKg.sets_ = true :=
  ⟨((c4_construction_validates (pystr "Bench press") [ kgSet, lbSet ]).2 (by decide)).1,
   ((c4_construction_validates (pystr "Bench press") [ kgSet, lbSet ]).2 (by decide)).2.1,
   (c4_construction_validates (pystr "Bench press") [ kgSet ]).1 benchKg (by rfl)⟩

/-- Claim C5: for every Exercise, `flatten` partitions its set sequence
into maximal consecutive runs of sets with identical `(weight,
repetitions)` — the output groups concatenate back to the input, none is
empty, each is constant on the key, adjacent groups carry different keys
— one clone per run in run order, every clone keeping the exercise name;
and it never merges non-adjacent runs, as the `[setA, setB, setA]`
exercise shows: its equal outer sets land in separate groups. -/
theorem c5_flatten_run_partition :
    (∀ e : Exercise,
      IsRunPartition e.sets_ ((Exercise.flatten e).map (fun g => g.sets_)) ∧
      (Exercise.flatten e).map (fun g => g.name)
        = List.replicate (Exercise.flatten e).length e.name) ∧
    (Exercise.flatten exRunsABA).map (fun g => g.sets_)
      = [ [ setA ], [ setB ], [ setA ] ] := by
  constructor
  · intro e
    refine ⟨?_, flatten_names e⟩
    rw [flatten_map_sets]
    exact ⟨chunkByF_flatten _ _ le_rfl,
           fun c hc => mem_chunkByF_ne_nil _ _ c hc,
           fun c hc => mem_chunkByF_key _ _ c hc,
           chunkByF_chain _ _ le_rfl⟩
  · rfl

/-- Claim C5 witness: the run-partition property instantiated at the
concrete three-set exercise. -/
theorem c5_flatten_run_partition_witness :
    IsRunPartition exRunsABA.sets_
      ((Exercise.flatten exRunsABA).map (fun g => g.sets_)) ∧
    (Exercise.flatten exRunsABA).map (fun g => g.name)
      = List.replicate (Exercise.flatten exRunsABA).length exRunsABA.name :=
  c5_flatten_run_partition.1 exRunsABA

/-- Claim C6: every group returned by `flatten` is already a single-run
exercise, so re-flattening any output group returns exactly the
one-element list containing that group. -/
theorem c6_reflatten_identity (e g : Exercise) (hg : g ∈ Exercise.flatten e) :
    Exercise.flatten g = [ g ] := by
  unfold Exercise.flatten at hg
  obtain ⟨run, hrun, rfl⟩ := List.mem_map.1 hg
  unfold chunkBy at hrun
  have hne : run ≠ [] := mem_chunkByF_ne_nil _ _ run hrun
  have hconst : ∀ a ∈ run, ∀ b ∈ run, setKey a = setKey b :=
    mem_chunkByF_key _ _ run hrun
  unfold Exercise.flatten
  have hsets : (e.setSets run).sets_ = run := rfl
  rw [hsets, chunkBy_of_const run hne hconst]
  rfl

/-- Claim C6 witness: re-flattening the first output group of the
three-run exercise reproduces exactly that group. -/
theorem c6_reflatten_identity_witness :
    Exercise.flatten ⟨pystr "Bench press", [ setA ]⟩
      = [ ⟨pystr "Bench press", [ setA ]⟩ ] :=
  c6_reflatten_identity exRunsABA ⟨pystr "Bench press", [ setA ]⟩ (by decide)

/-- Claim C7: multi-word synonyms are dead configuration — because `run`
splits the input on spaces before comparing, no token can ever equal a
synonym string containing an embedded space, so removing every such
synonym from the table never changes any result of `run`; and the
hard-coded table does contain such (unreachable) multi-word synonyms. -/
theorem c7_multiword_synonyms_dead :
    (∀ (syns : List SynonymEntry) (raw : List Char),
      StandardizeName.run (dropMultiwordSyns syns) raw = StandardizeName.run syns raw) ∧
    hasMultiwordSynonym defaultSynonyms = true :=
  ⟨run_dropMultiword, by decide⟩

/-- Claim C8: constructing the name canonicalizer fails (the assertion
`AssertionError`, the configuration error of the specification) whenever
some synonym string appears twice across the chained entries, and
succeeds whenever all synonyms are pairwise distinct and all clean values
are distinct. -/
theorem c8_configuration_validation (syns : List SynonymEntry) :
    (¬ (syns.flatMap (fun g => g.synonyms)).Nodup →
      mkStandardizeName syns = .error ()) ∧
    ((syns.flatMap (fun g => g.synonyms)).Nodup →
      (syns.map (fun g => g.clean)).Nodup →
      mkStandardizeName syns = .ok syns) := by
  constructor
  · intro hdup
    unfold mkStandardizeName
    rw [if_pos]
    intro hall
    exact hdup ((all_elements_are_different_iff _).1 hall)
  · intro h1 h2
    unfold mkStandardizeName
    rw [if_neg (fun hn => hn ((all_elements_are_different_iff _).2 h1)),
        if_neg (fun hn => hn ((all_elements_are_different_iff _).2 h2))]

/-- Claim C8 witness: the configuration listing `bp` twice is rejected at
construction; the hard-coded default configuration is accepted. -/
theorem c8_configuration_validation_witness :
    mkStandardizeName dupConfig = .error () ∧
    mkStandardizeName defaultSynonyms = .ok defaultSynonyms :=
  ⟨(c8_configuration_validation dupConfig).1 (by decide),
   (c8_configuration_validation defaultSynonyms).2 (by decide) (by decide)⟩

/-- Claim C9: concatenating, in order, the set lists of the exercises
returned by `flatten` gives back exactly the original set list, every
returned exercise carries the original name, and the total volumes of the
flattened groups sum to the total volume of the whole exercise. -/
theorem c9_flatten_partition_volume (e : Exercise) :
    ((Exercise.flatten e).map (fun g => g.sets_)).flatten = e.sets_ ∧
    (Exercise.flatten e).map (fun g => g.name)
      = List.replicate (Exercise.flatten e).length e.name ∧
    ((Exercise.flatten e).map total_volume).sum = total_volume e := by
  refine ⟨?_, flatten_names e, ?_⟩
  · rw [flatten_map_sets]
    exact chunkBy_flatten _
  · unfold Exercise.flatten
    rw [List.map_map]
    have hfun : (total_volume ∘ fun run => e.setSets run)
        = fun run => (run.map (fun s => (s.repetitions : ℚ) * s.weight.amount)).sum := by
      funext run
      exact total_volume_eq_sum (e.setSets run)
    rw [hfun, ← sum_map_flatten_vol, chunkBy_flatten]
    exact (total_volume_eq_sum e).symm

/-- Claim C9 witness: the partition and volume identities instantiated at
the concrete three-set exercise. -/
theorem c9_flatten_partition_volume_witness :
    ((Exercise.flatten exRunsABA).map (fun g => g.sets_)).flatten = exRunsABA.sets_ ∧
    (Exercise.flatten exRunsABA).map (fun g => g.name)
      = List.replicate (Exercise.flatten exRunsABA).length exRunsABA.name ∧
    ((Exercise.flatten exRunsABA).map total_volume).sum = total_volume exRunsABA :=
  c9_flatten_partition_volume exRunsABA

/-- Claim C10: `run` is not idempotent — `run "bp"` gives `Bench Press`,
but running the result again gives `Bench Press Press`, because the token
`bench` of the already-canonical name still matches the single-word
synonym `bench` and is re-expanded to the clean phrase `bench press`. -/
theorem c10_run_not_idempotent :
    StandardizeName.run defaultSynonyms (pystr "bp") = pystr "Bench Press" ∧
    StandardizeName.run defaultSynonyms
        (StandardizeName.run defaultSynonyms (pystr "bp"))
      = pystr "Bench Press Press" ∧
    StandardizeName.run defaultSynonyms
        (StandardizeName.run defaultSynonyms (pystr "bp"))
      ≠ StandardizeName.run defaultSynonyms (pystr "bp") := by
  refine ⟨by rfl, by rfl, by decide⟩
